import Mathlib

/-!
Verification development for the GCP billing report bot (`src/main.py`).

The development shallowly embeds the core logic of the program:

* `build_table` — the fixed-width, line-budgeted text table renderer;
* the aggregation loop of `get_gcp_cost` — consuming billing records into
  ordered dictionaries (`projects`, `sku_agg`, `project_totals`) and overall
  totals;
* the rendering of the three views (service-wide, project-wide, per-project
  detail) with formatted costs and percentage deltas;
* the message plan of `get_gcp_cost` — the anchor message followed by
  per-project threaded replies, modelled as an explicit trace of send events.

Costs are modelled as exact rationals (the Python source uses floats; all
properties proved here are about the arithmetic structure of the code, not
about binary floating point rounding).  Python dictionaries preserve
insertion order, so they are modelled as ordered association lists.
String primitives are modelled on the character lists underlying `String`,
matching Python's code-point semantics.
-/

set_option maxHeartbeats 1000000

unseal Rat.add Rat.mul Rat.sub Rat.inv

/-! ### Numeric and string helpers -/

/-- Python `round` on an exact rational value: round half to even. -/
def pyRound (q : ℚ) : ℤ :=
  let f : ℤ := q.num.fdiv (q.den : ℤ)
  if q - f < 1/2 then f
  else if (1 : ℚ)/2 < q - f then f + 1
  else if f % 2 = 0 then f else f + 1

/-- Python `f"{x:.2f}"`: format with two decimal places (round half to even). -/
def fmt2 (q : ℚ) : String :=
  let n : ℤ := pyRound (q * 100)
  let sign := if n < 0 then "-" else ""
  let m := n.natAbs
  sign ++ toString (m / 100) ++ "." ++ (if m % 100 < 10 then "0" else "") ++ toString (m % 100)

/-- Value of a list of decimal digit characters. -/
def digitsToNat (l : List Char) : ℕ :=
  l.foldl (fun n c => 10 * n + (c.toNat - 48)) 0

/-- Python `float(s)` on the decimal strings produced by `fmt2`. -/
def parseFloat (s : String) : ℚ :=
  let (neg, t) :=
    match s.data with
    | '-' :: rest => (true, rest)
    | cs => (false, cs)
  let q : ℚ :=
    match t.splitOn '.' with
    | [a] => (digitsToNat a : ℚ)
    | a :: b :: _ => (digitsToNat a : ℚ) + (digitsToNat b : ℚ) / ((10 : ℚ) ^ b.length)
    | [] => 0
  if neg then -q else q

/-- Python `str.ljust`. -/
def ljust (s : String) (w : ℕ) : String :=
  s ++ String.mk (List.replicate (w - s.length) ' ')

/-- Python `str.rjust`. -/
def rjust (s : String) (w : ℕ) : String :=
  String.mk (List.replicate (w - s.length) ' ') ++ s

/-- Python `s[:n]` on strings (code-point slicing). -/
def strTake (s : String) (n : ℕ) : String :=
  String.mk (s.data.take n)

/-- Python `enumerate` combined with a map: `f` receives the index of each
element, starting from `i`. -/
def mapWithIndex (f : ℕ → α → β) : ℕ → List α → List β
  | _, [] => []
  | i, a :: l => f i a :: mapWithIndex f (i + 1) l

/-! ### The table renderer (`build_table`, `src/main.py` lines 65–103) -/

/-- Column widths (`src/main.py` lines 72–78): for each header index `i`,
`len(col)` when there are no rows, otherwise
`max(len(col), *(len(str(row[i])) for row in rows))`.
Note that the widths are computed from the *full* row list, before the
30-data-row truncation. -/
def colWidths (header_names : List String) (rows : List (List String)) : List ℕ :=
  mapWithIndex
    (fun i col =>
      if rows.isEmpty then col.length
      else (rows.map (fun row => (row.getD i "").length)).foldl Nat.max col.length)
    0 header_names

/-- The header line (`src/main.py` line 80): every column left-justified. -/
def headerLine (header_names : List String) (w : List ℕ) : String :=
  "  ".intercalate (mapWithIndex (fun i col => ljust col (w.getD i 0)) 0 header_names)

/-- The dash separator (`src/main.py` line 81). -/
def sepLine (w : List ℕ) : String :=
  String.mk (List.replicate (w.sum + 2 * (w.length - 1)) '-')

/-- A data line (`src/main.py` lines 88–89): first column left-justified,
the rest right-justified. -/
def fmtRow (w : List ℕ) (row : List String) : String :=
  "  ".intercalate
    (mapWithIndex (fun i cell => if i = 0 then ljust cell (w.getD i 0) else rjust cell (w.getD i 0))
      0 row)

/-- The overall (summary) line (`src/main.py` lines 93–95). -/
def overallLine (header_names : List String) (w : List ℕ)
    (overall_label overall_cost overall_delta : String) : String :=
  ljust overall_label (w.getD 0 0) ++ "  " ++ rjust overall_cost (w.getD 1 0) ++
    (if header_names.length > 2 then "  " ++ rjust overall_delta (w.getD 2 0) else "")

/-- `build_table` (`src/main.py` lines 65–103), as the list of output lines.
The Python function returns these lines joined with `"\n"` (see
`build_table` below). -/
def build_table_lines (header_names : List String) (rows : List (List String))
    (overall_label overall_cost overall_delta : String) : List String :=
  let max_lines := 34
  let header_lines := 2
  let footer_lines := 2
  let max_data_rows := max_lines - header_lines - footer_lines
  let col_widths := colWidths header_names rows
  let kept := if rows.length > max_data_rows then rows.take max_data_rows else rows
  let table_lines :=
    [headerLine header_names col_widths, sepLine col_widths] ++
      kept.map (fmtRow col_widths) ++
      [sepLine col_widths, overallLine header_names col_widths overall_label overall_cost overall_delta]
  if table_lines.length > max_lines then table_lines.take max_lines else table_lines

/-- `build_table`: the joined string actually returned by the Python function. -/
def build_table (header_names : List String) (rows : List (List String))
    (overall_label overall_cost overall_delta : String) : String :=
  "\n".intercalate (build_table_lines header_names rows overall_label overall_cost overall_delta)

/-! ### Data model

A `CostRecord` is one row of the BigQuery result (`src/main.py` lines
140–148): project id, service (SKU) name, yesterday's cost, the
day-before cost when present, and the per-record delta percentage the
query computed (NULL when the day-before cost is NULL or zero). -/

structure CostRecord where
  project_id : String
  service_name : String
  yesterday_cost : ℚ
  day_before_cost : Option ℚ
  delta_percentage : Option ℤ
deriving DecidableEq, Repr

/-- Per-project accumulator (`projects[project]` in `src/main.py` line 175):
detail rows plus running totals. -/
structure ProjData where
  rows : List (List String)
  total_yesterday : ℚ
  total_day_before : ℚ
deriving DecidableEq, Repr

/-- The aggregation state of `get_gcp_cost` (`src/main.py` lines 163–168). -/
structure AggState where
  overall_total_yesterday : ℚ
  overall_total_day_before : ℚ
  projects : List (String × ProjData)
  sku_agg : List (String × (ℚ × ℚ))
  project_totals : List (String × (ℚ × ℚ))
deriving DecidableEq, Repr

/-! ### Ordered dictionaries as association lists

Python dictionaries preserve insertion order: updating an existing key
keeps its position, a new key is appended at the end. -/

/-- Update the value at key `k` in place if present; otherwise append
`(k, f init)` at the end.  This is the Python pattern
`if k not in d: d[k] = init` followed by a mutation of `d[k]`. -/
def upsert : List (String × β) → String → β → (β → β) → List (String × β)
  | [], k, init, f => [(k, f init)]
  | p :: t, k, init, f =>
    if p.1 = k then (p.1, f p.2) :: t else p :: upsert t k init f

/-- Dictionary lookup. -/
def lookupA (l : List (String × β)) (k : String) : Option β :=
  (l.find? (fun p => p.1 == k)).map (·.2)

/-- Python `k in d`. -/
def hasKey (l : List (String × β)) (k : String) : Bool :=
  l.any (fun p => p.1 == k)

/-! ### The aggregation loop (`src/main.py` lines 170–194) -/

/-- The detail row appended for a record (`src/main.py` line 180): truncated
service name, cost formatted to two decimals, and the *record's own* delta
percentage rendered as `"N%"` or `"N/A"` (line 179). -/
def recordDeltaStr (r : CostRecord) : String :=
  match r.delta_percentage with
  | none => "N/A"
  | some d => toString d ++ "%"

/-- One iteration of the aggregation loop (`src/main.py` lines 170–194). -/
def step (st : AggState) (r : CostRecord) : AggState :=
  let project := r.project_id
  let service := strTake r.service_name 45
  let cost := r.yesterday_cost
  let day_before := r.day_before_cost.getD 0
  let cost_str := fmt2 cost
  let delta_str := recordDeltaStr r
  { overall_total_yesterday := st.overall_total_yesterday + cost
    overall_total_day_before := st.overall_total_day_before + day_before
    projects := upsert st.projects project ⟨[], 0, 0⟩
      (fun p => ⟨p.rows ++ [[service, cost_str, delta_str]],
                 p.total_yesterday + cost, p.total_day_before + day_before⟩)
    sku_agg := upsert st.sku_agg service (0, 0)
      (fun v => (v.1 + cost, v.2 + day_before))
    project_totals := upsert st.project_totals project (0, 0)
      (fun v => (v.1 + cost, v.2 + day_before)) }

/-- The empty aggregation state (`src/main.py` lines 163–168). -/
def initState : AggState := ⟨0, 0, [], [], []⟩

/-- The whole aggregation loop. -/
def aggregate (records : List CostRecord) : AggState :=
  records.foldl step initState

/-! ### The three rendered views (`src/main.py` lines 196–240, 266–294) -/

/-- Descending stable sort of aggregate items by yesterday's cost
(`sorted(..., key=lambda item: item[1]["yesterday"], reverse=True)`,
`src/main.py` lines 198 and 219). -/
def sortedAgg (l : List (String × (ℚ × ℚ))) : List (String × (ℚ × ℚ)) :=
  l.mergeSort (fun a b => decide (b.2.1 ≤ a.2.1))

/-- One rendered aggregate row (`src/main.py` lines 199–206 and 220–227):
label, cost to two decimals, and the delta recomputed from the accumulated
totals (`"N/A"` when the accumulated day-before total is not positive). -/
def aggRowOf (kv : String × (ℚ × ℚ)) : List String :=
  [kv.1, fmt2 kv.2.1,
   if kv.2.2 > 0 then toString (pyRound ((kv.2.1 - kv.2.2) / kv.2.2 * 100)) ++ "%" else "N/A"]

/-- The service-wide (SKU) rows passed to `build_table` (`src/main.py`
lines 197–206). -/
def sku_rows (st : AggState) : List (List String) :=
  (sortedAgg st.sku_agg).map aggRowOf

/-- The project-wide rows passed to `build_table` (`src/main.py`
lines 218–227). -/
def project_rows (st : AggState) : List (List String) :=
  (sortedAgg st.project_totals).map aggRowOf

/-- The overall cost string (`src/main.py` lines 207 and 228). -/
def overall_cost_str (st : AggState) : String :=
  fmt2 st.overall_total_yesterday

/-- The overall delta string (`src/main.py` lines 208–212 and 229–233). -/
def overall_delta_str (st : AggState) : String :=
  if st.overall_total_day_before > 0 then
    toString (pyRound ((st.overall_total_yesterday - st.overall_total_day_before) /
      st.overall_total_day_before * 100)) ++ "%"
  else "N/A"

/-- Table 1: service-wide view (`src/main.py` line 215). -/
def sku_table_lines (records : List CostRecord) : List String :=
  build_table_lines ["SKU", "Cost", "Delta"] (sku_rows (aggregate records))
    "OVERALL" (overall_cost_str (aggregate records)) (overall_delta_str (aggregate records))

/-- Table 2 before stripping: project-wide view (`src/main.py` line 235). -/
def project_table_full_lines (records : List CostRecord) : List String :=
  build_table_lines ["Project", "Cost", "Delta"] (project_rows (aggregate records))
    "OVERALL" (overall_cost_str (aggregate records)) (overall_delta_str (aggregate records))

/-- Table 2 as embedded in the main message: the trailing separator and
OVERALL row are removed (`src/main.py` lines 236–240). -/
def project_table_stripped_lines (records : List CostRecord) : List String :=
  let l := project_table_full_lines records
  if l.length ≥ 2 then l.take (l.length - 2) else l

/-- The per-project TOTAL delta string (`src/main.py` lines 273–277):
recomputed from the project's accumulated totals. -/
def proj_delta_str (d : ProjData) : String :=
  if d.total_day_before > 0 then
    toString (pyRound ((d.total_yesterday - d.total_day_before) / d.total_day_before * 100)) ++ "%"
  else "N/A"

/-- Sort order of per-project detail rows (`src/main.py` line 279):
descending by the cost parsed back from its formatted string. -/
def rowCostLe (a b : List String) : Bool :=
  decide (parseFloat (b.getD 1 "") ≤ parseFloat (a.getD 1 ""))

/-- The detail table sent in a project's thread reply (`src/main.py`
lines 278–281). -/
def threadTableOf (d : ProjData) : List String :=
  build_table_lines ["SKU", "Cost", "Delta"] (d.rows.mergeSort rowCostLe)
    "TOTAL" (fmt2 d.total_yesterday) (proj_delta_str d)

/-- Projects sorted by total cost descending (`src/main.py` line 268),
a stable sort on the insertion-ordered `projects` dictionary. -/
def sortedProjectsByCost (projects : List (String × ProjData)) : List (String × ProjData) :=
  projects.mergeSort (fun a b => decide (b.2.total_yesterday ≤ a.2.total_yesterday))

/-! ### The message plan of `get_gcp_cost` (`src/main.py` lines 106–301)

External collaborators are abstracted at their interfaces: authorization
and the BigQuery query are `Except` values, and the Slack sink is a
function from the send index to the optional message timestamp it returns
(`send_slack_message` returns `None` on failure and never raises).
The trace records every send attempted, in order. -/

inductive SendEvent where
  | errorMsg (text : String)
  | mainMsg (skuTable : List String) (projectTable : Option (List String))
  | threadMsg (proj : String) (tableLines : List String) (thread_ts : Option String)
deriving DecidableEq, Repr

/-- `get_gcp_cost` (`src/main.py` lines 106–301), modelled as the returned
status string together with the trace of message sends attempted. -/
def get_gcp_cost (authResult : Except String Unit)
    (queryResult : Except String (List CostRecord))
    (send_project_breakdown send_thread_details : Bool)
    (sink : ℕ → Option String) : String × List SendEvent :=
  match authResult with
  | .error e => ("Error", [.errorMsg ("Error authorizing with BigQuery: " ++ e)])
  | .ok _ =>
    match queryResult with
    | .error e => ("Error", [.errorMsg ("Error executing BigQuery query: " ++ e)])
    | .ok records =>
      let st := aggregate records
      let sku_table_text := sku_table_lines records
      let project_table_text := project_table_stripped_lines records
      let main_send := SendEvent.mainMsg sku_table_text
        (if send_project_breakdown then some project_table_text else none)
      let main_ts := sink 0
      let thread_sends :=
        if send_thread_details then
          (sortedProjectsByCost st.projects).map
            (fun pd => SendEvent.threadMsg pd.1 (threadTableOf pd.2) main_ts)
        else []
      ("Success", main_send :: thread_sends)

/-- The detail row built for a record (`src/main.py` line 180). -/
def mkDetailRow (r : CostRecord) : List String :=
  [strTake r.service_name 45, fmt2 r.yesterday_cost, recordDeltaStr r]

/-- The aggregation key of the service-wide view: the truncated service name. -/
def skuKey (r : CostRecord) : String := strTake r.service_name 45

/-- Day-before cost with `None` treated as 0 (`src/main.py` lines 173 etc.). -/
def dayBefore (r : CostRecord) : ℚ := r.day_before_cost.getD 0

/-- Folding a list of records into an ordered dictionary with `upsert`. -/
def foldUpsert (key : CostRecord → String) (i : β) (upd : CostRecord → β → β)
    (l : List CostRecord) (acc : List (String × β)) : List (String × β) :=
  l.foldl (fun a r => upsert a (key r) i (upd r)) acc

/-- First-encounter order of a list of keys. -/
def encounterOrder (l : List String) : List String :=
  l.foldl (fun ks s => if s ∈ ks then ks else ks ++ [s]) []

/-- Modelled from the spec (§4.2, column widths): a variant renderer whose
column widths are computed from the *kept* rows only — "for each column,
width = max(header label length, max formatted-cell length across the kept
rows)". Used to compare the specified width rule with the implemented one. -/
def build_table_lines_keptWidths (header_names : List String) (rows : List (List String))
    (overall_label overall_cost overall_delta : String) : List String :=
  let max_lines := 34
  let header_lines := 2
  let footer_lines := 2
  let max_data_rows := max_lines - header_lines - footer_lines
  let kept := if rows.length > max_data_rows then rows.take max_data_rows else rows
  let col_widths := colWidths header_names kept
  let table_lines :=
    [headerLine header_names col_widths, sepLine col_widths] ++
      kept.map (fmtRow col_widths) ++
      [sepLine col_widths, overallLine header_names col_widths overall_label overall_cost overall_delta]
  if table_lines.length > max_lines then table_lines.take max_lines else table_lines

/-- Event classifiers for the send trace. -/
def SendEvent.isError : SendEvent → Bool
  | .errorMsg _ => true
  | _ => false

def SendEvent.isMain : SendEvent → Bool
  | .mainMsg _ _ => true
  | _ => false

def SendEvent.isThread : SendEvent → Bool
  | .threadMsg _ _ _ => true
  | _ => false

/-- Concrete inputs used to witness or refute individual properties. -/
def exRows31 : List (List String) :=
  List.replicate 30 ["a", "1.00", "1%"] ++ [["abcdefgh", "1.00", "1%"]]

def exRecords : List CostRecord :=
  [⟨"p1", "Compute Engine", 120, some 100, some 20⟩,
   ⟨"p1", "Storage", 30, some 0, none⟩]

def exRecords31 : List CostRecord :=
  (List.range 31).map (fun i => ⟨"p1", "service" ++ toString i, (i : ℚ) + 1, none, none⟩)

/-! ### Association list and fold lemmas -/

theorem lookupA_cons (p : String × β) (t : List (String × β)) (k : String) :
    lookupA (p :: t) k = if p.1 = k then some p.2 else lookupA t k := by
  by_cases h : p.1 = k <;> simp [lookupA, List.find?_cons, h]

theorem hasKey_cons (p : String × β) (t : List (String × β)) (k : String) :
    hasKey (p :: t) k = (p.1 == k || hasKey t k) := by
  simp [hasKey]

theorem hasKey_eq_isSome (l : List (String × β)) (k : String) :
    hasKey l k = (lookupA l k).isSome := by
  induction l with
  | nil => rfl
  | cons p t ih =>
    rw [hasKey_cons, lookupA_cons, ih]
    by_cases h : p.1 = k <;> simp [h]

theorem lookupA_upsert_self (l : List (String × β)) (k : String) (i : β) (f : β → β) :
    lookupA (upsert l k i f) k = some (f ((lookupA l k).getD i)) := by
  induction l with
  | nil => simp [upsert, lookupA]
  | cons p t ih =>
    by_cases h : p.1 = k
    · simp [upsert, h, lookupA_cons]
    · simp [upsert, h, lookupA_cons, ih]

theorem lookupA_upsert_ne (l : List (String × β)) {k k' : String} (h : k' ≠ k)
    (i : β) (f : β → β) :
    lookupA (upsert l k i f) k' = lookupA l k' := by
  have hne : ¬ (k = k') := fun hh => h hh.symm
  induction l with
  | nil => simp [upsert, lookupA_cons, hne, lookupA]
  | cons p t ih =>
    by_cases hp : p.1 = k
    · rw [upsert, if_pos hp, lookupA_cons, lookupA_cons]
      have hpk : ¬ p.1 = k' := fun hh => hne (hp.symm.trans hh)
      simp [hpk]
    · rw [upsert, if_neg hp, lookupA_cons, lookupA_cons, ih]

theorem hasKey_upsert_self (l : List (String × β)) (k : String) (i : β) (f : β → β) :
    hasKey (upsert l k i f) k = true := by
  induction l with
  | nil => simp [upsert, hasKey]
  | cons p t ih =>
    by_cases hp : p.1 = k
    · simp [upsert, hp, hasKey_cons]
    · simp [upsert, hp, hasKey_cons, ih]

theorem hasKey_upsert_ne (l : List (String × β)) {k k' : String} (h : k' ≠ k)
    (i : β) (f : β → β) :
    hasKey (upsert l k i f) k' = hasKey l k' := by
  have hne : ¬ (k = k') := fun hh => h hh.symm
  induction l with
  | nil => simp [upsert, hasKey_cons, hne, hasKey]
  | cons p t ih =>
    by_cases hp : p.1 = k
    · rw [upsert, if_pos hp, hasKey_cons, hasKey_cons]
    · rw [upsert, if_neg hp, hasKey_cons, hasKey_cons, ih]

theorem keys_upsert (l : List (String × β)) (k : String) (i : β) (f : β → β) :
    (upsert l k i f).map Prod.fst =
      if hasKey l k then l.map Prod.fst else l.map Prod.fst ++ [k] := by
  induction l with
  | nil => simp [upsert, hasKey]
  | cons p t ih =>
    by_cases hp : p.1 = k
    · simp [upsert, hp, hasKey_cons]
    · rw [upsert, if_neg hp, List.map_cons, ih, hasKey_cons]
      by_cases ht : hasKey t k <;> simp [hp, ht]

theorem hasKey_eq_mem (l : List (String × β)) (k : String) :
    hasKey l k = decide (k ∈ l.map Prod.fst) := by
  induction l with
  | nil => rfl
  | cons p t ih =>
    rw [hasKey_cons, ih]
    by_cases h : p.1 = k
    · simp [h]
    · have h' : ¬ k = p.1 := fun hh => h hh.symm
      have hb1 : (p.1 == k) = false := beq_eq_false_iff_ne.mpr h
      have hb2 : (k == p.1) = false := beq_eq_false_iff_ne.mpr h'
      simp [hb1, hb2]

theorem lookupA_foldUpsert (key : CostRecord → String) (i : β) (upd : CostRecord → β → β) :
    ∀ (l : List CostRecord) (acc : List (String × β)) (k : String),
    lookupA (foldUpsert key i upd l acc) k =
      if hasKey acc k || l.any (fun r => key r == k) then
        some ((l.filter (fun r => key r == k)).foldl (fun v r => upd r v)
          ((lookupA acc k).getD i))
      else none := by
  intro l
  induction l with
  | nil =>
    intro acc k
    rw [foldUpsert]
    simp only [List.foldl_nil, List.any_nil, Bool.or_false, List.filter_nil, List.foldl_nil]
    rw [hasKey_eq_isSome]
    cases h : lookupA acc k <;> simp [h]
  | cons r t ih =>
    intro acc k
    have hstep : foldUpsert key i upd (r :: t) acc =
        foldUpsert key i upd t (upsert acc (key r) i (upd r)) := rfl
    rw [hstep, ih]
    by_cases hk : key r = k
    · have hbeq : (key r == k) = true := beq_iff_eq.mpr hk
      have h1 : hasKey (upsert acc (key r) i (upd r)) k = true := by
        rw [hk]; exact hasKey_upsert_self _ _ _ _
      have h2 : lookupA (upsert acc (key r) i (upd r)) k =
          some (upd r ((lookupA acc k).getD i)) := by
        rw [hk]; exact lookupA_upsert_self _ _ _ _
      rw [h1, h2, List.filter_cons, if_pos hbeq, List.foldl_cons, List.any_cons, hbeq]
      simp
    · have hbeq : (key r == k) = false := by simp [hk]
      have hne : k ≠ key r := fun hh => hk hh.symm
      have hfilter : List.filter (fun x => key x == k) (r :: t) =
          List.filter (fun x => key x == k) t := by
        simp [List.filter_cons, hbeq]
      have hany : (r :: t).any (fun x => key x == k) = t.any (fun x => key x == k) := by
        rw [List.any_cons, hbeq, Bool.false_or]
      rw [hasKey_upsert_ne acc hne, lookupA_upsert_ne acc hne, hfilter, hany]

theorem keys_foldUpsert (key : CostRecord → String) (i : β) (upd : CostRecord → β → β) :
    ∀ (l : List CostRecord) (acc : List (String × β)),
    (foldUpsert key i upd l acc).map Prod.fst =
      l.foldl (fun ks r => if key r ∈ ks then ks else ks ++ [key r]) (acc.map Prod.fst) := by
  intro l
  induction l with
  | nil => intro acc; rfl
  | cons r t ih =>
    intro acc
    have hstep : foldUpsert key i upd (r :: t) acc =
        foldUpsert key i upd t (upsert acc (key r) i (upd r)) := rfl
    rw [hstep, ih, List.foldl_cons, keys_upsert, hasKey_eq_mem]
    by_cases h : key r ∈ acc.map Prod.fst <;> simp [h]

theorem keysNodup_foldUpsert (key : CostRecord → String) (i : β) (upd : CostRecord → β → β) :
    ∀ (l : List CostRecord) (acc : List (String × β)),
    (acc.map Prod.fst).Nodup → ((foldUpsert key i upd l acc).map Prod.fst).Nodup := by
  intro l
  induction l with
  | nil => intro acc h; exact h
  | cons r t ih =>
    intro acc h
    have hstep : foldUpsert key i upd (r :: t) acc =
        foldUpsert key i upd t (upsert acc (key r) i (upd r)) := rfl
    rw [hstep]
    apply ih
    rw [keys_upsert]
    by_cases hk : hasKey acc (key r)
    · simpa [hk] using h
    · rw [if_neg hk]
      have : key r ∉ acc.map Prod.fst := by
        rw [hasKey_eq_mem] at hk; simpa using hk
      simp [List.nodup_append, h, this]

theorem lookupA_eq_of_mem_nodup {l : List (String × β)} {k : String} {v : β}
    (h : (k, v) ∈ l) (hn : (l.map Prod.fst).Nodup) : lookupA l k = some v := by
  induction l with
  | nil => cases h
  | cons p t ih =>
    rcases List.mem_cons.mp h with h1 | h1
    · rw [lookupA_cons, ← h1]
      simp
    · have hk : k ∈ t.map Prod.fst := List.mem_map.mpr ⟨(k, v), h1, rfl⟩
      have hp : p.1 ≠ k := by
        intro hh
        rw [List.map_cons, List.nodup_cons] at hn
        exact hn.1 (hh ▸ hk)
      rw [lookupA_cons, if_neg hp]
      exact ih h1 (by rw [List.map_cons, List.nodup_cons] at hn; exact hn.2)

/-! ### Characterizing the aggregation state -/

theorem foldl_step_sku : ∀ (l : List CostRecord) (st : AggState),
    (l.foldl step st).sku_agg =
      foldUpsert skuKey (0, 0)
        (fun r v => (v.1 + r.yesterday_cost, v.2 + dayBefore r)) l st.sku_agg := by
  intro l
  induction l with
  | nil => intro st; rfl
  | cons r t ih =>
    intro st
    rw [List.foldl_cons, ih]
    rfl

theorem foldl_step_project_totals : ∀ (l : List CostRecord) (st : AggState),
    (l.foldl step st).project_totals =
      foldUpsert (fun r => r.project_id) (0, 0)
        (fun r v => (v.1 + r.yesterday_cost, v.2 + dayBefore r)) l st.project_totals := by
  intro l
  induction l with
  | nil => intro st; rfl
  | cons r t ih =>
    intro st
    rw [List.foldl_cons, ih]
    rfl

theorem foldl_step_projects : ∀ (l : List CostRecord) (st : AggState),
    (l.foldl step st).projects =
      foldUpsert (fun r => r.project_id) ⟨[], 0, 0⟩
        (fun r d => ⟨d.rows ++ [mkDetailRow r], d.total_yesterday + r.yesterday_cost,
          d.total_day_before + dayBefore r⟩) l st.projects := by
  intro l
  induction l with
  | nil => intro st; rfl
  | cons r t ih =>
    intro st
    rw [List.foldl_cons, ih]
    rfl

theorem foldl_step_overall_y : ∀ (l : List CostRecord) (st : AggState),
    (l.foldl step st).overall_total_yesterday =
      st.overall_total_yesterday + (l.map (·.yesterday_cost)).sum := by
  intro l
  induction l with
  | nil => intro st; simp
  | cons r t ih =>
    intro st
    rw [List.foldl_cons, ih]
    show st.overall_total_yesterday + r.yesterday_cost + _ = _
    rw [List.map_cons, List.sum_cons, add_assoc]

theorem foldl_step_overall_d : ∀ (l : List CostRecord) (st : AggState),
    (l.foldl step st).overall_total_day_before =
      st.overall_total_day_before + (l.map dayBefore).sum := by
  intro l
  induction l with
  | nil => intro st; simp
  | cons r t ih =>
    intro st
    rw [List.foldl_cons, ih]
    show st.overall_total_day_before + dayBefore r + _ = _
    rw [List.map_cons, List.sum_cons, add_assoc]

theorem overall_y_eq (records : List CostRecord) :
    (aggregate records).overall_total_yesterday = (records.map (·.yesterday_cost)).sum := by
  rw [aggregate, foldl_step_overall_y]
  show (0 : ℚ) + _ = _
  rw [zero_add]

theorem overall_d_eq (records : List CostRecord) :
    (aggregate records).overall_total_day_before = (records.map dayBefore).sum := by
  rw [aggregate, foldl_step_overall_d]
  show (0 : ℚ) + _ = _
  rw [zero_add]

theorem foldl_addPair (y d : CostRecord → ℚ) :
    ∀ (l : List CostRecord) (a b : ℚ),
    l.foldl (fun (v : ℚ × ℚ) r => (v.1 + y r, v.2 + d r)) (a, b) =
      (a + (l.map y).sum, b + (l.map d).sum) := by
  intro l
  induction l with
  | nil => intro a b; simp
  | cons r t ih =>
    intro a b
    rw [List.foldl_cons]
    show t.foldl _ (a + y r, b + d r) = _
    rw [ih, List.map_cons, List.sum_cons, List.map_cons, List.sum_cons, add_assoc, add_assoc]

/-- The service-wide dictionary after aggregation maps each key to the sums
of yesterday and day-before costs over the records whose truncated service
name equals that key, and has no entry for keys no record maps to. -/
theorem skuAgg_lookup (records : List CostRecord) (k : String) :
    lookupA (aggregate records).sku_agg k =
      if records.any (fun r => skuKey r == k) then
        some (((records.filter (fun r => skuKey r == k)).map (·.yesterday_cost)).sum,
              ((records.filter (fun r => skuKey r == k)).map dayBefore).sum)
      else none := by
  rw [aggregate, foldl_step_sku, lookupA_foldUpsert]
  have hkey : hasKey initState.sku_agg k = false := rfl
  have hbase : (lookupA initState.sku_agg k).getD ((0 : ℚ), (0 : ℚ)) = (0, 0) := rfl
  rw [hkey, Bool.false_or, hbase]
  by_cases h : records.any (fun r => skuKey r == k)
  · rw [if_pos h, if_pos h]
    simp only [foldl_addPair]
    simp
  · rw [if_neg h, if_neg h]

/-- The project-totals dictionary after aggregation maps each project id to
the sums over that project's records. -/
theorem projectTotals_lookup (records : List CostRecord) (k : String) :
    lookupA (aggregate records).project_totals k =
      if records.any (fun r => r.project_id == k) then
        some (((records.filter (fun r => r.project_id == k)).map (·.yesterday_cost)).sum,
              ((records.filter (fun r => r.project_id == k)).map dayBefore).sum)
      else none := by
  rw [aggregate, foldl_step_project_totals, lookupA_foldUpsert]
  have hkey : hasKey initState.project_totals k = false := rfl
  have hbase : (lookupA initState.project_totals k).getD ((0 : ℚ), (0 : ℚ)) = (0, 0) := rfl
  rw [hkey, Bool.false_or, hbase]
  by_cases h : records.any (fun r => r.project_id == k)
  · rw [if_pos h, if_pos h]
    simp only [foldl_addPair]
    simp
  · rw [if_neg h, if_neg h]

theorem foldl_projUpd : ∀ (l : List CostRecord) (d : ProjData),
    l.foldl (fun d r => ProjData.mk (d.rows ++ [mkDetailRow r])
        (d.total_yesterday + r.yesterday_cost) (d.total_day_before + dayBefore r)) d =
      ⟨d.rows ++ l.map mkDetailRow,
       d.total_yesterday + (l.map (·.yesterday_cost)).sum,
       d.total_day_before + (l.map dayBefore).sum⟩ := by
  intro l
  induction l with
  | nil => intro d; simp
  | cons r t ih =>
    intro d
    rw [List.foldl_cons, ih]
    simp [List.sum_cons, add_assoc]

/-- The per-project dictionary after aggregation: each project id present in
the input maps to the list of detail rows of its records in input order
(each row carrying the record's own delta string) together with the sums of
its records' costs. -/
theorem projects_lookup (records : List CostRecord) (k : String) :
    lookupA (aggregate records).projects k =
      if records.any (fun r => r.project_id == k) then
        some ⟨(records.filter (fun r => r.project_id == k)).map mkDetailRow,
              ((records.filter (fun r => r.project_id == k)).map (·.yesterday_cost)).sum,
              ((records.filter (fun r => r.project_id == k)).map dayBefore).sum⟩
      else none := by
  rw [aggregate, foldl_step_projects, lookupA_foldUpsert]
  have hkey : hasKey initState.projects k = false := rfl
  have hbase : (lookupA initState.projects k).getD (ProjData.mk [] 0 0) = ⟨[], 0, 0⟩ := rfl
  rw [hkey, Bool.false_or, hbase]
  by_cases h : records.any (fun r => r.project_id == k)
  · rw [if_pos h, if_pos h]
    simp only [foldl_projUpd]
    simp
  · rw [if_neg h, if_neg h]

theorem skuAgg_keys_nodup (records : List CostRecord) :
    ((aggregate records).sku_agg.map Prod.fst).Nodup := by
  rw [aggregate, foldl_step_sku]
  exact keysNodup_foldUpsert _ _ _ _ _ List.Pairwise.nil

theorem projectTotals_keys_nodup (records : List CostRecord) :
    ((aggregate records).project_totals.map Prod.fst).Nodup := by
  rw [aggregate, foldl_step_project_totals]
  exact keysNodup_foldUpsert _ _ _ _ _ List.Pairwise.nil

theorem projects_keys_nodup (records : List CostRecord) :
    ((aggregate records).projects.map Prod.fst).Nodup := by
  rw [aggregate, foldl_step_projects]
  exact keysNodup_foldUpsert _ _ _ _ _ List.Pairwise.nil

/-- The keys of the service-wide dictionary are exactly the truncated
service names in the order they were first encountered in the input. -/
theorem skuAgg_keys_encounterOrder (records : List CostRecord) :
    (aggregate records).sku_agg.map Prod.fst = encounterOrder (records.map skuKey) := by
  rw [aggregate, foldl_step_sku, keys_foldUpsert, encounterOrder, List.foldl_map]
  rfl

/-! ### Stability and sortedness of `mergeSort` -/

/-- A stable sort leaves the elements of any tie class (any set of elements
on which `le` always holds) in their original relative order. -/
theorem filter_mergeSort_eq {α : Type} (le : α → α → Bool) (p : α → Bool)
    (htrans : ∀ (a b c : α), le a b → le b c → le a c)
    (htotal : ∀ (a b : α), le a b || le b a)
    (hp : ∀ a b, p a = true → p b = true → le a b = true) (l : List α) :
    (l.mergeSort le).filter p = l.filter p := by
  have hsub : List.Sublist (l.filter p) l := List.filter_sublist l
  have hpw : (l.filter p).Pairwise (fun a b => le a b = true) :=
    List.pairwise_of_forall_mem_list
      (fun a ha b hb => hp a b (List.of_mem_filter ha) (List.of_mem_filter hb))
  have h3 : List.Sublist (l.filter p) (l.mergeSort le) :=
    List.sublist_mergeSort htrans htotal hpw hsub
  have h4 : List.Sublist (l.filter p) ((l.mergeSort le).filter p) := by
    have h5 := h3.filter p
    rw [List.filter_filter] at h5
    have : (fun a => p a && p a) = p := by funext a; cases p a <;> simp
    rwa [this] at h5
  have hlen : ((l.mergeSort le).filter p).length = (l.filter p).length :=
    ((List.mergeSort_perm l le).filter p).length_eq
  exact (h4.eq_of_length hlen.symm).symm

theorem sortedAgg_pairwise (l : List (String × (ℚ × ℚ))) :
    (sortedAgg l).Pairwise (fun a b => b.2.1 ≤ a.2.1) := by
  have h := @List.sorted_mergeSort (String × (ℚ × ℚ))
    (fun a b => decide (b.2.1 ≤ a.2.1))
    (fun a b c hab hbc => by
      simp only [decide_eq_true_iff] at *
      exact le_trans hbc hab)
    (fun a b => by
      simp only [Bool.or_eq_true, decide_eq_true_iff]
      exact le_total b.2.1 a.2.1) l
  exact h.imp (fun hab => of_decide_eq_true hab)

theorem sortedAgg_perm (l : List (String × (ℚ × ℚ))) : List.Perm (sortedAgg l) l :=
  List.mergeSort_perm l _

/-- Stability of the aggregate-row sort: elements with any given cost value
appear in the sorted list in the same order as in the dictionary. -/
theorem sortedAgg_stable (l : List (String × (ℚ × ℚ))) (c : ℚ) :
    (sortedAgg l).filter (fun kv => decide (kv.2.1 = c)) =
      l.filter (fun kv => decide (kv.2.1 = c)) := by
  apply filter_mergeSort_eq
  · intro a b cc hab hbc
    simp only [decide_eq_true_iff] at *
    exact le_trans hbc hab
  · intro a b
    simp only [Bool.or_eq_true, decide_eq_true_iff]
    exact le_total b.2.1 a.2.1
  · intro a b ha hb
    simp only [decide_eq_true_iff] at *
    rw [ha, hb]

theorem sortedProjectsByCost_pairwise (l : List (String × ProjData)) :
    (sortedProjectsByCost l).Pairwise (fun a b => b.2.total_yesterday ≤ a.2.total_yesterday) := by
  have h := @List.sorted_mergeSort (String × ProjData)
    (fun a b => decide (b.2.total_yesterday ≤ a.2.total_yesterday))
    (fun a b c hab hbc => by
      simp only [decide_eq_true_iff] at *
      exact le_trans hbc hab)
    (fun a b => by
      simp only [Bool.or_eq_true, decide_eq_true_iff]
      exact le_total b.2.total_yesterday a.2.total_yesterday) l
  exact h.imp (fun hab => of_decide_eq_true hab)

theorem sortedProjectsByCost_perm (l : List (String × ProjData)) :
    List.Perm (sortedProjectsByCost l) l :=
  List.mergeSort_perm l _

/-! ### Structure of the renderer output -/

/-- `build_table` always produces: header line, separator, the first thirty
data rows (in caller order), separator, overall line — with the column
widths computed from the full row list. -/
theorem build_table_lines_eq (header_names : List String) (rows : List (List String))
    (overall_label overall_cost overall_delta : String) :
    build_table_lines header_names rows overall_label overall_cost overall_delta =
      [headerLine header_names (colWidths header_names rows),
       sepLine (colWidths header_names rows)] ++
        (rows.take 30).map (fmtRow (colWidths header_names rows)) ++
        [sepLine (colWidths header_names rows),
         overallLine header_names (colWidths header_names rows)
           overall_label overall_cost overall_delta] := by
  rw [build_table_lines]
  have hkept : (if rows.length > 34 - 2 - 2 then rows.take (34 - 2 - 2) else rows) =
      rows.take 30 := by
    show (if rows.length > 30 then rows.take 30 else rows) = rows.take 30
    by_cases h : rows.length > 30
    · rw [if_pos h]
    · rw [if_neg h, List.take_of_length_le (by omega)]
  rw [hkept]
  have hlen : ([headerLine header_names (colWidths header_names rows),
      sepLine (colWidths header_names rows)] ++
        (rows.take 30).map (fmtRow (colWidths header_names rows)) ++
        [sepLine (colWidths header_names rows),
         overallLine header_names (colWidths header_names rows)
           overall_label overall_cost overall_delta]).length ≤ 34 := by
    simp only [List.length_append, List.length_map, List.length_take, List.length_cons]
    have : min 30 rows.length ≤ 30 := min_le_left _ _
    simp
    omega
  rw [if_neg (by omega)]

/-! ### Values of aggregate entries -/

theorem skuAgg_mem_eq (records : List CostRecord) {kv : String × (ℚ × ℚ)}
    (h : kv ∈ (aggregate records).sku_agg) :
    kv.2 = (((records.filter (fun r => skuKey r == kv.1)).map (·.yesterday_cost)).sum,
            ((records.filter (fun r => skuKey r == kv.1)).map dayBefore).sum) := by
  have hmem : (kv.1, kv.2) ∈ (aggregate records).sku_agg := by simpa using h
  have hl := lookupA_eq_of_mem_nodup hmem (skuAgg_keys_nodup records)
  rw [skuAgg_lookup] at hl
  by_cases hany : records.any (fun r => skuKey r == kv.1)
  · rw [if_pos hany] at hl
    exact (Option.some.inj hl).symm
  · rw [if_neg hany] at hl
    cases hl

theorem projectTotals_mem_eq (records : List CostRecord) {kv : String × (ℚ × ℚ)}
    (h : kv ∈ (aggregate records).project_totals) :
    kv.2 = (((records.filter (fun r => r.project_id == kv.1)).map (·.yesterday_cost)).sum,
            ((records.filter (fun r => r.project_id == kv.1)).map dayBefore).sum) := by
  have hmem : (kv.1, kv.2) ∈ (aggregate records).project_totals := by simpa using h
  have hl := lookupA_eq_of_mem_nodup hmem (projectTotals_keys_nodup records)
  rw [projectTotals_lookup] at hl
  by_cases hany : records.any (fun r => r.project_id == kv.1)
  · rw [if_pos hany] at hl
    exact (Option.some.inj hl).symm
  · rw [if_neg hany] at hl
    cases hl

/-! ### The claims -/

/-- Claim C1: every call to the table renderer returns at most 34 lines and
at most 30 data rows regardless of the number of input rows; with more than
30 rows exactly the first 30, in caller-supplied order, are kept, and the
output still ends with the separator and the summary line. -/
theorem build_table_line_budget (header_names : List String) (rows : List (List String))
    (overall_label overall_cost overall_delta : String) :
    (build_table_lines header_names rows overall_label overall_cost overall_delta).length ≤ 34 ∧
    build_table_lines header_names rows overall_label overall_cost overall_delta =
      [headerLine header_names (colWidths header_names rows),
       sepLine (colWidths header_names rows)] ++
        (rows.take 30).map (fmtRow (colWidths header_names rows)) ++
        [sepLine (colWidths header_names rows),
         overallLine header_names (colWidths header_names rows)
           overall_label overall_cost overall_delta] ∧
    ((rows.take 30).map (fmtRow (colWidths header_names rows))).length ≤ 30 := by
  refine ⟨?_, build_table_lines_eq _ _ _ _ _, ?_⟩
  · rw [build_table_lines_eq]
    simp only [List.length_append, List.length_map, List.length_take, List.length_cons,
      List.length_nil]
    have := min_le_left 30 rows.length
    omega
  · simp only [List.length_map, List.length_take]
    exact min_le_left _ _

/-- Claim C2 as stated is false of the code: the column widths are computed
from the full row list *before* the 30-row truncation, so a dropped row can
widen a column.  At this concrete input (30 short rows followed by one long
row that is dropped) the implemented renderer and the spec-modelled
kept-rows-width renderer produce different output. -/
theorem build_table_widths_use_dropped_rows :
    build_table_lines ["SKU", "Cost", "Delta"] exRows31 "OVERALL" "0.00" "N/A" ≠
      build_table_lines_keptWidths ["SKU", "Cost", "Delta"] exRows31 "OVERALL" "0.00" "N/A" := by
  decide

/-- Claim C2, amended: each column's width is the maximum of the header
label length and the longest cell among *all supplied* rows — including
rows later dropped by the 30-row truncation; with zero rows the width is
the header label length. -/
theorem build_table_widths_from_all_rows (header_names : List String)
    (rows : List (List String)) (overall_label overall_cost overall_delta : String) :
    build_table_lines header_names rows overall_label overall_cost overall_delta =
      [headerLine header_names (colWidths header_names rows),
       sepLine (colWidths header_names rows)] ++
        (rows.take 30).map (fmtRow (colWidths header_names rows)) ++
        [sepLine (colWidths header_names rows),
         overallLine header_names (colWidths header_names rows)
           overall_label overall_cost overall_delta] ∧
    colWidths header_names rows =
      mapWithIndex
        (fun i col => (rows.map (fun row => (row.getD i "").length)).foldl Nat.max col.length)
        0 header_names ∧
    colWidths header_names [] = mapWithIndex (fun _ col => col.length) 0 header_names := by
  refine ⟨build_table_lines_eq _ _ _ _ _, ?_, rfl⟩
  cases rows with
  | nil => rfl
  | cons r t => rfl

/-- Claim C4: the service name is truncated to its first 45 characters
before being used as the service-wide aggregation key: the keys of the
service-wide dictionary are distinct, and the entry at any key carries the
summed costs of *all* records whose truncated service name equals that key
— so two records agreeing on the first 45 characters merge into one row. -/
theorem service_key_truncated_merging (records : List CostRecord) (k : String) :
    ((aggregate records).sku_agg.map Prod.fst).Nodup ∧
    (∀ r : CostRecord, skuKey r = strTake r.service_name 45) ∧
    lookupA (aggregate records).sku_agg k =
      (if records.any (fun r => skuKey r == k) then
        some (((records.filter (fun r => skuKey r == k)).map (·.yesterday_cost)).sum,
              ((records.filter (fun r => skuKey r == k)).map dayBefore).sum)
      else none) :=
  ⟨skuAgg_keys_nodup records, fun _ => rfl, skuAgg_lookup records k⟩

/-- Claim C5: the service-wide rows handed to the renderer are the
dictionary entries sorted non-increasingly by yesterday's cost; entries of
equal cost keep their relative dictionary order, and the dictionary order
is the order in which the truncated service keys were first encountered in
the input. -/
theorem service_rows_sorted_desc_stable (records : List CostRecord) (c : ℚ) :
    sku_rows (aggregate records) = (sortedAgg (aggregate records).sku_agg).map aggRowOf ∧
    (sortedAgg (aggregate records).sku_agg).Pairwise (fun a b => b.2.1 ≤ a.2.1) ∧
    (sortedAgg (aggregate records).sku_agg).filter (fun kv => decide (kv.2.1 = c)) =
      (aggregate records).sku_agg.filter (fun kv => decide (kv.2.1 = c)) ∧
    (aggregate records).sku_agg.map Prod.fst = encounterOrder (records.map skuKey) :=
  ⟨rfl, sortedAgg_pairwise _, sortedAgg_stable _ c, skuAgg_keys_encounterOrder records⟩

/-- Claim C3: for every aggregate row (service-wide, project-wide, and the
overall summary), given non-negative input costs: the accumulated
day-before total is non-negative; when it is zero (in particular when every
contributing day-before value was absent) the rendered delta is exactly
"N/A"; when it is positive the rendered delta is the rounded percentage
change computed from the accumulated totals, formatted with a trailing
percent sign. -/
theorem aggregate_delta_rendering (records : List CostRecord)
    (hy : ∀ r ∈ records, 0 ≤ r.yesterday_cost)
    (hd : ∀ r ∈ records, 0 ≤ dayBefore r) :
    (∀ kv ∈ sortedAgg (aggregate records).sku_agg,
      0 ≤ kv.2.2 ∧
      (kv.2.2 = 0 → aggRowOf kv = [kv.1, fmt2 kv.2.1, "N/A"]) ∧
      (0 < kv.2.2 → aggRowOf kv =
        [kv.1, fmt2 kv.2.1, toString (pyRound ((kv.2.1 - kv.2.2) / kv.2.2 * 100)) ++ "%"])) ∧
    (∀ kv ∈ sortedAgg (aggregate records).project_totals,
      0 ≤ kv.2.2 ∧
      (kv.2.2 = 0 → aggRowOf kv = [kv.1, fmt2 kv.2.1, "N/A"]) ∧
      (0 < kv.2.2 → aggRowOf kv =
        [kv.1, fmt2 kv.2.1, toString (pyRound ((kv.2.1 - kv.2.2) / kv.2.2 * 100)) ++ "%"])) ∧
    (0 ≤ (aggregate records).overall_total_day_before ∧
     ((aggregate records).overall_total_day_before = 0 →
        overall_delta_str (aggregate records) = "N/A") ∧
     (0 < (aggregate records).overall_total_day_before →
        overall_delta_str (aggregate records) =
          toString (pyRound (((aggregate records).overall_total_yesterday -
              (aggregate records).overall_total_day_before) /
            (aggregate records).overall_total_day_before * 100)) ++ "%")) := by
  have hsum : ∀ (l : List CostRecord), (∀ r ∈ l, r ∈ records) →
      0 ≤ ((l.map dayBefore).sum : ℚ) := by
    intro l hl
    apply List.sum_nonneg
    intro x hx
    rcases List.mem_map.mp hx with ⟨r, hr, hrx⟩
    exact hrx ▸ hd r (hl r hr)
  refine ⟨?_, ?_, ?_⟩
  · intro kv hkv
    have hmem : kv ∈ (aggregate records).sku_agg := List.mem_mergeSort.mp hkv
    have hval := skuAgg_mem_eq records hmem
    have hnn : 0 ≤ kv.2.2 := by
      rw [hval]
      exact hsum _ (fun r hr => List.mem_of_mem_filter hr)
    refine ⟨hnn, ?_, ?_⟩
    · intro h0
      simp [aggRowOf, h0]
    · intro hpos
      simp [aggRowOf, hpos]
  · intro kv hkv
    have hmem : kv ∈ (aggregate records).project_totals := List.mem_mergeSort.mp hkv
    have hval := projectTotals_mem_eq records hmem
    have hnn : 0 ≤ kv.2.2 := by
      rw [hval]
      exact hsum _ (fun r hr => List.mem_of_mem_filter hr)
    refine ⟨hnn, ?_, ?_⟩
    · intro h0
      simp [aggRowOf, h0]
    · intro hpos
      simp [aggRowOf, hpos]
  · have hnn : 0 ≤ (aggregate records).overall_total_day_before := by
      rw [overall_d_eq]
      exact hsum records (fun r hr => hr)
    refine ⟨hnn, ?_, ?_⟩
    · intro h0
      rw [overall_delta_str, h0]
      simp
    · intro hpos
      rw [overall_delta_str, if_pos hpos]

/-- Witness for C3: the two-record day of spec scenario A satisfies the
non-negativity hypotheses, and the conclusion holds there. -/
theorem aggregate_delta_rendering_witness :
    ((∀ r ∈ exRecords, 0 ≤ r.yesterday_cost) ∧ (∀ r ∈ exRecords, 0 ≤ dayBefore r)) ∧
    ((∀ kv ∈ sortedAgg (aggregate exRecords).sku_agg,
      0 ≤ kv.2.2 ∧
      (kv.2.2 = 0 → aggRowOf kv = [kv.1, fmt2 kv.2.1, "N/A"]) ∧
      (0 < kv.2.2 → aggRowOf kv =
        [kv.1, fmt2 kv.2.1, toString (pyRound ((kv.2.1 - kv.2.2) / kv.2.2 * 100)) ++ "%"])) ∧
    (∀ kv ∈ sortedAgg (aggregate exRecords).project_totals,
      0 ≤ kv.2.2 ∧
      (kv.2.2 = 0 → aggRowOf kv = [kv.1, fmt2 kv.2.1, "N/A"]) ∧
      (0 < kv.2.2 → aggRowOf kv =
        [kv.1, fmt2 kv.2.1, toString (pyRound ((kv.2.1 - kv.2.2) / kv.2.2 * 100)) ++ "%"])) ∧
    (0 ≤ (aggregate exRecords).overall_total_day_before ∧
     ((aggregate exRecords).overall_total_day_before = 0 →
        overall_delta_str (aggregate exRecords) = "N/A") ∧
     (0 < (aggregate exRecords).overall_total_day_before →
        overall_delta_str (aggregate exRecords) =
          toString (pyRound (((aggregate exRecords).overall_total_yesterday -
              (aggregate exRecords).overall_total_day_before) /
            (aggregate exRecords).overall_total_day_before * 100)) ++ "%"))) :=
  ⟨⟨by decide, by decide⟩, aggregate_delta_rendering exRecords (by decide) (by decide)⟩

/-- Claim C6: the delta on each per-project detail row is the record's own
delta rendered as "N/A" or "N%" and never recomputed from totals, while
every aggregate delta (service-wide, project-wide, per-project TOTAL) is
recomputed from the summed today/day-before totals of the contributing
records. -/
theorem detail_delta_from_record_aggregate_recomputed
    (records : List CostRecord) (proj : String) :
    lookupA (aggregate records).projects proj =
      (if records.any (fun r => r.project_id == proj) then
        some ⟨(records.filter (fun r => r.project_id == proj)).map mkDetailRow,
              ((records.filter (fun r => r.project_id == proj)).map (·.yesterday_cost)).sum,
              ((records.filter (fun r => r.project_id == proj)).map dayBefore).sum⟩
      else none) ∧
    (∀ r : CostRecord, mkDetailRow r = [skuKey r, fmt2 r.yesterday_cost, recordDeltaStr r]) ∧
    (∀ d : ProjData, lookupA (aggregate records).projects proj = some d →
      proj_delta_str d =
        (if 0 < ((records.filter (fun r => r.project_id == proj)).map dayBefore).sum then
          toString (pyRound
            ((((records.filter (fun r => r.project_id == proj)).map (·.yesterday_cost)).sum -
                ((records.filter (fun r => r.project_id == proj)).map dayBefore).sum) /
              ((records.filter (fun r => r.project_id == proj)).map dayBefore).sum * 100)) ++ "%"
        else "N/A")) ∧
    (∀ kv ∈ (aggregate records).sku_agg,
      kv.2 = (((records.filter (fun r => skuKey r == kv.1)).map (·.yesterday_cost)).sum,
              ((records.filter (fun r => skuKey r == kv.1)).map dayBefore).sum)) ∧
    (∀ kv ∈ (aggregate records).project_totals,
      kv.2 = (((records.filter (fun r => r.project_id == kv.1)).map (·.yesterday_cost)).sum,
              ((records.filter (fun r => r.project_id == kv.1)).map dayBefore).sum)) := by
  refine ⟨projects_lookup records proj, fun _ => rfl, ?_, ?_, ?_⟩
  · intro d hd
    rw [projects_lookup] at hd
    by_cases hany : records.any (fun r => r.project_id == proj)
    · rw [if_pos hany] at hd
      cases Option.some.inj hd
      rfl
    · rw [if_neg hany] at hd
      cases hd
  · intro kv hkv
    exact skuAgg_mem_eq records hkv
  · intro kv hkv
    exact projectTotals_mem_eq records hkv

/-- Claim C7: with an empty record set, each rendered table is exactly four
lines — header, separator, separator, summary — with summary cost "0.00"
and summary delta "N/A"; no project exists, so the composed report is the
single anchor message and no threaded reply. -/
theorem empty_input_tables_four_lines :
    sku_table_lines [] =
      ["SKU  Cost  Delta", "----------------", "----------------", "OVERALL  0.00    N/A"] ∧
    project_table_full_lines [] =
      ["Project  Cost  Delta", "--------------------", "--------------------",
       "OVERALL  0.00    N/A"] ∧
    overall_cost_str (aggregate []) = "0.00" ∧
    overall_delta_str (aggregate []) = "N/A" ∧
    (aggregate []).projects = [] ∧
    (∀ (pb td : Bool) (sink : ℕ → Option String),
      (get_gcp_cost (.ok ()) (.ok []) pb td sink).2 =
        [SendEvent.mainMsg (sku_table_lines [])
          (if pb then some (project_table_stripped_lines []) else none)]) := by
  have hs : sortedAgg ((aggregate []).sku_agg) = [] := List.mergeSort_nil
  have hp : sortedAgg ((aggregate []).project_totals) = [] := List.mergeSort_nil
  have hq : sortedProjectsByCost ((aggregate []).projects) = [] := List.mergeSort_nil
  have hsku : sku_table_lines [] = build_table_lines ["SKU", "Cost", "Delta"] []
      "OVERALL" (overall_cost_str (aggregate [])) (overall_delta_str (aggregate [])) := by
    rw [sku_table_lines, sku_rows, hs]
    rfl
  have hproj : project_table_full_lines [] = build_table_lines ["Project", "Cost", "Delta"] []
      "OVERALL" (overall_cost_str (aggregate [])) (overall_delta_str (aggregate [])) := by
    rw [project_table_full_lines, project_rows, hp]
    rfl
  have hcost : overall_cost_str (aggregate []) = "0.00" := by decide
  have hdelta : overall_delta_str (aggregate []) = "N/A" := by decide
  refine ⟨?_, ?_, hcost, hdelta, rfl, ?_⟩
  · rw [hsku, hcost, hdelta]
    decide
  · rw [hproj, hcost, hdelta]
    decide
  · intro pb td sink
    cases td
    · rfl
    · show _ :: (if true = true then _ else []) = _
      rw [if_pos rfl, hq]
      rfl

/-- Claim C8: if the data-source query fails, the entry point returns
"Error" with exactly one error-message send attempted and neither an anchor
message nor a threaded reply in the trace. -/
theorem query_failure_single_error_send (e : String) (pb td : Bool)
    (sink : ℕ → Option String) :
    get_gcp_cost (.ok ()) (.error e) pb td sink =
      ("Error", [SendEvent.errorMsg ("Error executing BigQuery query: " ++ e)]) ∧
    ((get_gcp_cost (.ok ()) (.error e) pb td sink).2.filter SendEvent.isError).length = 1 ∧
    (get_gcp_cost (.ok ()) (.error e) pb td sink).2.filter SendEvent.isMain = [] ∧
    (get_gcp_cost (.ok ()) (.error e) pb td sink).2.filter SendEvent.isThread = [] :=
  ⟨rfl, rfl, rfl, rfl⟩

/-- Claim C9: in a successful run with thread details enabled, the trace is
the anchor message followed by one threaded reply per project; every reply
carries the timestamp obtained from the anchor send (`sink 0`); the
projects are ordered non-increasingly by their today-cost total; and the
reply list is a permutation of the whole projects dictionary — every
project is attempted no matter what any send returns. -/
theorem anchor_before_threads_order (records : List CostRecord) (pb : Bool)
    (sink : ℕ → Option String) :
    (get_gcp_cost (.ok ()) (.ok records) pb true sink).1 = "Success" ∧
    (get_gcp_cost (.ok ()) (.ok records) pb true sink).2 =
      SendEvent.mainMsg (sku_table_lines records)
          (if pb then some (project_table_stripped_lines records) else none) ::
        (sortedProjectsByCost (aggregate records).projects).map
          (fun pd => SendEvent.threadMsg pd.1 (threadTableOf pd.2) (sink 0)) ∧
    (sortedProjectsByCost (aggregate records).projects).Pairwise
      (fun a b => b.2.total_yesterday ≤ a.2.total_yesterday) ∧
    List.Perm (sortedProjectsByCost (aggregate records).projects)
      (aggregate records).projects :=
  ⟨rfl, rfl, sortedProjectsByCost_pairwise _, sortedProjectsByCost_perm _⟩

/-- Claim C10: a project's TOTAL row is computed from all of its records,
including those whose detail rows the 30-row cap drops: with more than 30
records for a project, its thread table shows exactly 30 data rows while
its TOTAL cost is the formatted sum over all of the project's records. -/
theorem project_total_includes_dropped_rows (records : List CostRecord) (proj : String)
    (h : 30 < (records.filter (fun r => r.project_id == proj)).length) :
    ∃ d : ProjData, lookupA (aggregate records).projects proj = some d ∧
      d.total_yesterday =
        ((records.filter (fun r => r.project_id == proj)).map (·.yesterday_cost)).sum ∧
      d.rows.length = (records.filter (fun r => r.project_id == proj)).length ∧
      ((d.rows.mergeSort rowCostLe).take 30).length = 30 ∧
      threadTableOf d =
        [headerLine ["SKU", "Cost", "Delta"]
           (colWidths ["SKU", "Cost", "Delta"] (d.rows.mergeSort rowCostLe)),
         sepLine (colWidths ["SKU", "Cost", "Delta"] (d.rows.mergeSort rowCostLe))] ++
          ((d.rows.mergeSort rowCostLe).take 30).map
            (fmtRow (colWidths ["SKU", "Cost", "Delta"] (d.rows.mergeSort rowCostLe))) ++
          [sepLine (colWidths ["SKU", "Cost", "Delta"] (d.rows.mergeSort rowCostLe)),
           overallLine ["SKU", "Cost", "Delta"]
             (colWidths ["SKU", "Cost", "Delta"] (d.rows.mergeSort rowCostLe)) "TOTAL"
             (fmt2 (((records.filter (fun r => r.project_id == proj)).map
               (·.yesterday_cost)).sum))
             (proj_delta_str d)] := by
  have hfilter_ne : records.filter (fun r => r.project_id == proj) ≠ [] := by
    intro h0
    rw [h0] at h
    simp at h
  rcases List.exists_mem_of_ne_nil _ hfilter_ne with ⟨r, hr⟩
  have hr' := List.mem_filter.mp hr
  have hne : records.any (fun r => r.project_id == proj) = true :=
    List.any_eq_true.mpr ⟨r, hr'.1, hr'.2⟩
  have hlook : lookupA (aggregate records).projects proj =
      some ⟨(records.filter (fun r => r.project_id == proj)).map mkDetailRow,
            ((records.filter (fun r => r.project_id == proj)).map (·.yesterday_cost)).sum,
            ((records.filter (fun r => r.project_id == proj)).map dayBefore).sum⟩ := by
    rw [projects_lookup, if_pos hne]
  refine ⟨_, hlook, rfl, ?_, ?_, ?_⟩
  · simp
  · simp only [List.length_take, List.length_mergeSort, List.length_map]
    omega
  · rw [threadTableOf, build_table_lines_eq]

/-- Witness for C10: a project with 31 records satisfies the hypothesis,
and the conclusion holds there. -/
theorem project_total_includes_dropped_rows_witness :
    30 < (exRecords31.filter (fun r => r.project_id == "p1")).length ∧
    (∃ d : ProjData, lookupA (aggregate exRecords31).projects "p1" = some d ∧
      d.total_yesterday =
        ((exRecords31.filter (fun r => r.project_id == "p1")).map (·.yesterday_cost)).sum ∧
      d.rows.length = (exRecords31.filter (fun r => r.project_id == "p1")).length ∧
      ((d.rows.mergeSort rowCostLe).take 30).length = 30 ∧
      threadTableOf d =
        [headerLine ["SKU", "Cost", "Delta"]
           (colWidths ["SKU", "Cost", "Delta"] (d.rows.mergeSort rowCostLe)),
         sepLine (colWidths ["SKU", "Cost", "Delta"] (d.rows.mergeSort rowCostLe))] ++
          ((d.rows.mergeSort rowCostLe).take 30).map
            (fmtRow (colWidths ["SKU", "Cost", "Delta"] (d.rows.mergeSort rowCostLe))) ++
          [sepLine (colWidths ["SKU", "Cost", "Delta"] (d.rows.mergeSort rowCostLe)),
           overallLine ["SKU", "Cost", "Delta"]
             (colWidths ["SKU", "Cost", "Delta"] (d.rows.mergeSort rowCostLe)) "TOTAL"
             (fmt2 (((exRecords31.filter (fun r => r.project_id == "p1")).map
               (·.yesterday_cost)).sum))
             (proj_delta_str d)]) :=
  ⟨by decide, project_total_includes_dropped_rows exRecords31 "p1" (by decide)⟩
